import Mathlib

/-!
# Polygon2D_Cgal: the JNI polygon predicates and the polygon repair

A shallow embedding of `src/native/export/src/polygon/Polygon2D_Cgal.cxx`.

* A Java `double[]` handed over by `GetDoubleArrayElements` is a `List D`; an
  access outside `[0, length)` is undefined behaviour in C++ and is recorded as
  `Outcome.undefined`.
* The functions of the CGAL library that the file calls (`is_simple`,
  `is_convex`, `oriented_side`, `area`, `CGAL::insert`, the hole list of the
  unbounded face, `to_double`) are not part of the file. They are parameters of
  the embedding, so that what is proved of the file holds for every behaviour of
  the library.
* `int` counters are unbounded integers: the loops count array cells and
  halfedges, far below `2^31`.
-/

namespace Polygon2D_Cgal

/-! ## Results of a native call -/

/-- What a call of one of the native functions can end in. -/
inductive Outcome (α : Type) where
  /-- the call returns `a` to its caller -/
  | value (a : α) : Outcome α
  /-- the call reports an error to its caller; no function of the file has a
  statement that does so (no `ThrowNew`, no error code) -/
  | structuralError : Outcome α
  /-- the call runs into undefined behaviour of C++: an array access out of
  bounds, a dereferenced past-the-end iterator, a missing `return` -/
  | undefined : Outcome α
  /-- a loop has not come to its end within the steps it was given -/
  | timeout : Outcome α
  deriving DecidableEq, Repr

namespace Outcome

/-- Sequencing: the first outcome that is not a value ends the call. -/
def bind {α β : Type} : Outcome α → (α → Outcome β) → Outcome β
  | value a, f => f a
  | structuralError, _ => structuralError
  | undefined, _ => undefined
  | timeout, _ => timeout

instance : Monad Outcome where
  pure := Outcome.value
  bind := Outcome.bind

end Outcome

open Outcome

/-! ## Memory -/

/-- The read `a[i]` of a C array of `a.length` cells. -/
def readAt {α : Type} (a : List α) (i : Int) : Outcome α :=
  if 0 ≤ i then
    match a[i.toNat]? with
    | some v => value v
    | none => undefined
  else undefined

/-- The write `a[i] = v` to a C array of `a.length` cells. -/
def writeAt {α : Type} (a : List α) (i : Int) (v : α) : Outcome (List α) :=
  if 0 ≤ i ∧ i < a.length then value (a.set i.toNat v) else undefined

/-- The body of `for (int i = lo; ...; ++i)` run `n` more times from `i`. -/
def forLoop {σ : Type} (body : Int → σ → Outcome σ) : Nat → Int → σ → Outcome σ
  | 0, _, s => value s
  | n + 1, i, s => body i s >>= fun s1 => forLoop body n (i + 1) s1

/-- The loop `for (int i = lo; i < hi; ++i) body`, whose body leaves `i` and
`hi` alone: it runs `hi - lo` times, not at all when `hi ≤ lo`. -/
def forRange {σ : Type} (lo hi : Int) (body : Int → σ → Outcome σ) (s : σ) : Outcome σ :=
  forLoop body (hi - lo).toNat lo s

/-! ## Polygons of the predicate engine -/

/-- A point `Point(x, y)`. -/
structure Point (α : Type) where
  x : α
  y : α
  deriving DecidableEq, Repr

/-- A `Polygon_2`: its vertices in the order of `push_back`. -/
abbrev Polygon_2 (D : Type) := List (Point D)

/-- The function `pointListToPolygon(num, xs, ys)`, lines 58-67. -/
def pointListToPolygon {D : Type} (num : Int) (xs ys : List D) : Outcome (Polygon_2 D) :=
  forRange 0 num
    (fun i poly => do
      let x ← readAt xs i
      let y ← readAt ys i
      pure (poly ++ [Point.mk x y]))
    []

/-- The native `cgal_isSimple`, lines 75-99; `is_simple` is `Polygon_2::is_simple`. -/
def cgal_isSimple {D : Type} (is_simple : Polygon_2 D → Bool) (jxs jys : List D) :
    Outcome Bool := do
  let size_x : Int := jxs.length
  let pgn ← pointListToPolygon size_x jxs jys
  pure (is_simple pgn)

/-- The native `cgal_isConvex`, lines 106-130; `is_convex` is `Polygon_2::is_convex`. -/
def cgal_isConvex {D : Type} (is_convex : Polygon_2 D → Bool) (jxs jys : List D) :
    Outcome Bool := do
  let size_x : Int := jxs.length
  let pgn ← pointListToPolygon size_x jxs jys
  pure (is_convex pgn)

/-- The value of `CGAL::ON_NEGATIVE_SIDE`. -/
def ON_NEGATIVE_SIDE : Int := -1

/-- The value of `CGAL::ON_ORIENTED_BOUNDARY`. -/
def ON_ORIENTED_BOUNDARY : Int := 0

/-- The value of `CGAL::ON_POSITIVE_SIDE`. -/
def ON_POSITIVE_SIDE : Int := 1

/-- The native `cgal_orientation`, lines 137-173; `oriented_side` is
`Polygon_2::oriented_side`, whose enumeration value is an `Int` here. The
`default:` branch prints a message and leaves the function without `return`. -/
def cgal_orientation {D : Type} (oriented_side : Polygon_2 D → Point D → Int)
    (jxs jys jpt : List D) : Outcome Int := do
  let size_x : Int := jxs.length
  let pgn ← pointListToPolygon size_x jxs jys
  let pt0 ← readAt jpt 0
  let pt1 ← readAt jpt 1
  let p := Point.mk pt0 pt1
  let orient := oriented_side pgn p
  if orient = ON_NEGATIVE_SIDE then pure (-1)
  else if orient = ON_ORIENTED_BOUNDARY then pure 0
  else if orient = ON_POSITIVE_SIDE then pure 1
  else undefined

/-- The native `cgal_isCounterclockwiseOriented`, lines 180-205. -/
def cgal_isCounterclockwiseOriented {D : Type}
    (is_counterclockwise_oriented : Polygon_2 D → Bool) (jxs jys : List D) :
    Outcome Bool := do
  let size_x : Int := jxs.length
  let pgn ← pointListToPolygon size_x jxs jys
  pure (is_counterclockwise_oriented pgn)

/-- The native `cgal_isClockwiseOriented`, lines 212-236. -/
def cgal_isClockwiseOriented {D : Type}
    (is_clockwise_oriented : Polygon_2 D → Bool) (jxs jys : List D) :
    Outcome Bool := do
  let size_x : Int := jxs.length
  let pgn ← pointListToPolygon size_x jxs jys
  pure (is_clockwise_oriented pgn)

/-- The native `cgal_signedArea`, lines 243-267; `area` is `Polygon_2::area`. -/
def cgal_signedArea {D : Type} (area : Polygon_2 D → D) (jxs jys : List D) :
    Outcome D := do
  let size_x : Int := jxs.length
  let pgn ← pointListToPolygon size_x jxs jys
  pure (area pgn)

/-! ## The arrangement of the repair engine -/

/-- A `Segment_2(ps, pt)` of the arrangement traits. -/
structure Segment (Q : Type) where
  source : Point Q
  target : Point Q
  deriving DecidableEq, Repr

/-- A halfedge of the arrangement, with the points of `source()` and `target()`. -/
structure Halfedge (Q : Type) where
  source : Point Q
  target : Point Q
  deriving DecidableEq, Repr

/-- A boundary cycle as a hole iterator designates it (`*hi`): the halfedge the
circulator starts at and the halfedges that follow it round the cycle, in the
order of `++curr`. A cycle has at least one halfedge. -/
structure Ccb (Q : Type) where
  first : Halfedge Q
  rest : List (Halfedge Q)
  deriving DecidableEq, Repr

/-- The halfedges of a cycle, in the order of the circulator. -/
def Ccb.halfedges {Q : Type} (c : Ccb Q) : List (Halfedge Q) := c.first :: c.rest

/-- The number of halfedges of a cycle. -/
def Ccb.size {Q : Type} (c : Ccb Q) : Nat := c.rest.length + 1

/-- What `cgal_makePolySimple` takes from the CGAL library. -/
structure Arrangement_2 (D Q : Type) where
  /-- the conversion of a `double` into the exact `Number_type`, as done by
  `Point_2 ps(xcoords[i], ycoords[i])` -/
  ofDouble : D → Q
  /-- the function `to_double` -/
  to_double : Q → D
  /-- the value of a default-constructed `Segment_2`, as `new Segment_2[size]`
  fills the array with -/
  defaultSegment : Segment Q
  /-- the hole cycles of `arr.unbounded_face()` after `CGAL::insert(arr, &cv[0],
  &cv[size])`, from `holes_begin()` on -/
  holes : List (Segment Q) → List (Ccb Q)

/-- The segment array of `cgal_makePolySimple`, lines 283-298: `cv` after the
loop and the assignment of the last segment. -/
def buildSegments {D Q : Type} (arr : Arrangement_2 D Q) (xcoords ycoords : List D) :
    Outcome (List (Segment Q)) := do
  let size : Int := xcoords.length
  let cv : List (Segment Q) := List.replicate size.toNat arr.defaultSegment
  let cv ← forRange 0 (size - 1)
    (fun i cv => do
      let psx ← readAt xcoords i
      let psy ← readAt ycoords i
      let ptx ← readAt xcoords (i + 1)
      let pty ← readAt ycoords (i + 1)
      let ps := Point.mk (arr.ofDouble psx) (arr.ofDouble psy)
      let pt := Point.mk (arr.ofDouble ptx) (arr.ofDouble pty)
      writeAt cv i (Segment.mk ps pt))
    cv
  let psx ← readAt xcoords (size - 1)
  let psy ← readAt ycoords (size - 1)
  let ptx ← readAt xcoords 0
  let pty ← readAt ycoords 0
  let ps := Point.mk (arr.ofDouble psx) (arr.ofDouble psy)
  let pt := Point.mk (arr.ofDouble ptx) (arr.ofDouble pty)
  writeAt cv (size - 1) (Segment.mk ps pt)

/-- The circulator step `++curr` on a cycle of `m` halfedges; a circulator is
the position of its halfedge in the cycle, and `*hi` is position `0`. -/
def circNext (m curr : Nat) : Nat := (curr + 1) % m

/-- The loop of lines 313-315, `do { pointcount++; } while (++curr != (*hi));`,
given `fuel` rounds. -/
def countLoop (m : Nat) : Nat → Nat → Int → Outcome Int
  | 0, _, _ => timeout
  | fuel + 1, curr, pointcount =>
    let pointcount := pointcount + 1
    let curr := circNext m curr
    if curr ≠ 0 then countLoop m fuel curr pointcount else value pointcount

/-- The loop of lines 332-337, given `fuel` rounds: the targets of the
halfedges are written to `points[index]` and `points[index + pointNum]`. A cell
of `points` is `none` until it is written. -/
def fillLoop {D Q : Type} (to_double : Q → D) (c : Ccb Q) (pointNum : Int) :
    Nat → Nat → Int → List (Option D) → Outcome (List (Option D))
  | 0, _, _, _ => timeout
  | fuel + 1, curr, index, points =>
    match c.halfedges[curr]? with
    | none => undefined
    | some h =>
      writeAt points index (some (to_double h.target.x)) >>= fun points =>
      writeAt points (index + pointNum) (some (to_double h.target.y)) >>= fun points =>
      let index := index + 1
      let curr := circNext c.size curr
      if curr ≠ 0 then fillLoop to_double c pointNum fuel curr index points
      else value points

/-- The copy `SetDoubleArrayRegion(simplePoly, 0, 2*pointNum, points)` of line
339: it reads every cell of `points`, and the read of a cell that was never
written is the read of an indeterminate value. -/
def copyOut {D : Type} : List (Option D) → Outcome (List D)
  | [] => value []
  | none :: _ => undefined
  | some v :: rest => copyOut rest >>= fun r => value (v :: r)

/-- Lines 303-340 of `cgal_makePolySimple`: the walk round the first hole of
the unbounded face. `*hi` is taken without a comparison of `hi` with
`holes_end()`; on an empty hole list it dereferences the past-the-end
iterator. -/
def walkFirstHole {D Q : Type} (to_double : Q → D) (fuel : Nat) :
    List (Ccb Q) → Outcome (List D)
  | [] => undefined
  | c :: _ => do
    let pointcount ← countLoop c.size fuel 0 0
    let pointNum := pointcount
    let points : List (Option D) := List.replicate (2 * pointNum).toNat none
    let points ← fillLoop to_double c pointNum fuel 0 0 points
    copyOut points

/-- The native `cgal_makePolySimple`, lines 274-341; each of its two `do`
loops is given `fuel` rounds. -/
def cgal_makePolySimple {D Q : Type} (arr : Arrangement_2 D Q) (fuel : Nat)
    (jxs jys : List D) : Outcome (List D) := do
  let cv ← buildSegments arr jxs jys
  walkFirstHole arr.to_double fuel (arr.holes cv)

/-- The input polygon `p_0, ..., p_{N-1}` in the exact coordinates of the
arrangement: `p_i` has the `i`-th entry of each coordinate sequence. -/
def exactPolygon {D Q : Type} (arr : Arrangement_2 D Q) (xs ys : List D) : List (Point Q) :=
  List.zipWith (fun x y => Point.mk (arr.ofDouble x) (arr.ofDouble y)) xs ys

/-- The sequence the walk returns for a cycle: the x-coordinates of the targets
of its halfedges in the order of the circulator, then their y-coordinates. -/
def packedTargets {D Q : Type} (to_double : Q → D) (c : Ccb Q) : List D :=
  c.halfedges.map (fun e => to_double e.target.x) ++
    c.halfedges.map (fun e => to_double e.target.y)

/-! ## The library predicates, as the specification describes them -/

/-- Modelled from the spec: `Polygon_2::area()`, a function of the CGAL library
that `cgal_signedArea` calls and that is not part of the source file. The
specification (4.2, signedArea) gives it as the shoelace formula: half the sum
over the consecutive vertex pairs of `x_i * y_{i+1} - x_{i+1} * y_i`, the final
pair wrapping to vertex 0. The pairs are those of the polygon with itself
rotated by one place. Coordinates are rationals: the rounding of `double`
arithmetic is not part of the model. -/
def area (P : Polygon_2 ℚ) : ℚ :=
  (List.zipWith (fun p q => p.x * q.y - q.x * p.y) P (P.rotate 1)).sum / 2

/-- Modelled from the spec: `Polygon_2::is_counterclockwise_oriented()`, not
part of the source file. The specification (4.2) has it determined by the sign
of the signed area, positive for counter-clockwise winding. -/
def is_counterclockwise_oriented (P : Polygon_2 ℚ) : Bool := decide (0 < area P)

/-- Modelled from the spec: `Polygon_2::is_clockwise_oriented()`, not part of
the source file. The specification (4.2) has it determined by the sign of the
signed area, negative for clockwise winding. -/
def is_clockwise_oriented (P : Polygon_2 ℚ) : Bool := decide (area P < 0)

/-! ## Concrete inputs -/

/-- The library over rational coordinates: no conversion in either direction,
and a given hole list of the unbounded face. -/
def ratArr (holes : List (Segment ℚ) → List (Ccb ℚ)) : Arrangement_2 ℚ ℚ where
  ofDouble := id
  to_double := id
  defaultSegment := Segment.mk (Point.mk 0 0) (Point.mk 0 0)
  holes := holes

/-- The hole cycle of the unbounded face for the unit square `(0,0), (1,0),
(1,1), (0,1)`: its four edges, walked with the unbounded face to the left. -/
def squareCcb : Ccb ℚ :=
  Ccb.mk ⟨⟨0, 0⟩, ⟨0, 1⟩⟩ [⟨⟨0, 1⟩, ⟨1, 1⟩⟩, ⟨⟨1, 1⟩, ⟨1, 0⟩⟩, ⟨⟨1, 0⟩, ⟨0, 0⟩⟩]

/-- The hole cycle of the unbounded face for the bowtie `(0,0), (1,1), (1,0),
(0,1)`. The segments `(0,0)-(1,1)` and `(1,0)-(0,1)` cross in `(1/2,1/2)`, which
becomes a vertex of the arrangement; the arrangement has the two triangular
lobes as bounded faces, and its six edges are connected, so that the unbounded
face has one hole cycle. That cycle runs round both lobes and passes through
the crossing vertex once for each lobe. -/
def bowtieCcb : Ccb ℚ :=
  Ccb.mk ⟨⟨0, 0⟩, ⟨0, 1⟩⟩
    [⟨⟨0, 1⟩, ⟨1/2, 1/2⟩⟩, ⟨⟨1/2, 1/2⟩, ⟨1, 1⟩⟩, ⟨⟨1, 1⟩, ⟨1, 0⟩⟩,
     ⟨⟨1, 0⟩, ⟨1/2, 1/2⟩⟩, ⟨⟨1/2, 1/2⟩, ⟨0, 0⟩⟩]

/-- The polygon that a packed result `[x0, ..., xM-1, y0, ..., yM-1]` of
`cgal_makePolySimple` stands for (the layout of the comment in line 323). -/
def unpackedPolygon {D : Type} (r : List D) : Polygon_2 D :=
  List.zipWith Point.mk (r.take (r.length / 2)) (r.drop (r.length / 2))

/-- The shoelace formula as the claim writes it: one half of the sum over
`i = 0, ..., N-1` of `x_i * y_{(i+1) mod N} - x_{(i+1) mod N} * y_i`. -/
def shoelaceFormula (xs ys : List ℚ) : ℚ :=
  (∑ i ∈ Finset.range xs.length,
    (xs.getD i 0 * ys.getD ((i + 1) % xs.length) 0
      - xs.getD ((i + 1) % xs.length) 0 * ys.getD i 0)) / 2

/-! # Theorems -/

section OutcomeFacts
open Outcome

@[simp] theorem pure_eq {α : Type} (a : α) : (pure a : Outcome α) = value a := rfl

@[simp] theorem value_bind {α β : Type} (a : α) (f : α → Outcome β) :
    (value a >>= f) = f a := rfl

@[simp] theorem structuralError_bind {α β : Type} (f : α → Outcome β) :
    ((structuralError : Outcome α) >>= f) = structuralError := rfl

@[simp] theorem undefined_bind {α β : Type} (f : α → Outcome β) :
    ((undefined : Outcome α) >>= f) = undefined := rfl

@[simp] theorem timeout_bind {α β : Type} (f : α → Outcome β) :
    ((timeout : Outcome α) >>= f) = timeout := rfl

end OutcomeFacts

/-! ## Memory and loops: basic facts -/

theorem readAt_of_getElem? {α : Type} (a : List α) (j : Int) (i : Nat) (v : α)
    (hj : j = (i : Int)) (h : a[i]? = some v) : readAt a j = value v := by
  subst hj
  simp [readAt, h]

theorem readAt_neg {α : Type} (a : List α) (j : Int) (hj : j < 0) :
    readAt a j = undefined := by
  simp [readAt, not_le.mpr hj]

theorem writeAt_of_lt {α : Type} (a : List α) (j : Int) (i : Nat) (v : α)
    (hj : j = (i : Int)) (h : i < a.length) : writeAt a j v = value (a.set i v) := by
  subst hj
  have : ((i : Int) < (a.length : Int)) := by exact_mod_cast h
  simp [writeAt, this]

/-- A `for` loop whose body keeps an invariant ends with a value that
satisfies it. -/
theorem forLoop_invariant {σ : Type} (body : Int → σ → Outcome σ) (n : Nat) :
    ∀ (inv : Nat → σ → Prop) (lo : Int) (s : σ), inv 0 s →
      (∀ k t, k < n → inv k t → ∃ t1, body (lo + k) t = value t1 ∧ inv (k + 1) t1) →
      ∃ t, forLoop body n lo s = value t ∧ inv n t := by
  induction n with
  | zero =>
    intro inv lo s h0 _
    exact ⟨s, rfl, h0⟩
  | succ n ih =>
    intro inv lo s h0 hstep
    obtain ⟨t1, hb, h1⟩ := hstep 0 s (Nat.succ_pos n) h0
    simp only [Nat.cast_zero, add_zero] at hb
    have := ih (fun k t => inv (k + 1) t) (lo + 1) t1 h1 (by
      intro k t hk hinv
      obtain ⟨t2, hb2, h2⟩ := hstep (k + 1) t (Nat.succ_lt_succ hk) hinv
      refine ⟨t2, ?_, h2⟩
      have e : lo + 1 + (k : Int) = lo + ((k + 1 : Nat) : Int) := by push_cast; ring
      rw [e]; exact hb2)
    obtain ⟨t, ht, hinv⟩ := this
    exact ⟨t, by simp [forLoop, hb, ht], hinv⟩

theorem exactPolygon_length {D Q : Type} (arr : Arrangement_2 D Q) (xs ys : List D)
    (hlen : ys.length = xs.length) : (exactPolygon arr xs ys).length = xs.length := by
  simp [exactPolygon, hlen]

theorem exactPolygon_getElem? {D Q : Type} (arr : Arrangement_2 D Q) (xs ys : List D)
    (i : Nat) (hx : i < xs.length) (hy : i < ys.length) :
    ∃ x y, xs[i]? = some x ∧ ys[i]? = some y ∧
      (exactPolygon arr xs ys)[i]? = some (Point.mk (arr.ofDouble x) (arr.ofDouble y)) := by
  refine ⟨xs[i], ys[i], List.getElem?_eq_getElem hx, List.getElem?_eq_getElem hy, ?_⟩
  simp [exactPolygon, List.getElem?_zipWith, List.getElem?_eq_getElem hx,
    List.getElem?_eq_getElem hy]

/-- C10. For an input of `N ≥ 1` points the segment array is built without
an access outside `[0, N)` (the result is a value), has `N` entries, and its
entry `i` is the segment from `p_i` to `p_{(i+1) mod N}`, for every `i < N`. -/
theorem buildSegments_is_closed_chain {D Q : Type} (arr : Arrangement_2 D Q) (xs ys : List D)
    (hN : 1 ≤ xs.length) (hlen : ys.length = xs.length) :
    ∃ cv, buildSegments arr xs ys = value cv ∧ cv.length = xs.length ∧
      ∀ i, i < xs.length → ∃ p q, (exactPolygon arr xs ys)[i]? = some p ∧
        (exactPolygon arr xs ys)[(i + 1) % xs.length]? = some q ∧
        cv[i]? = some (Segment.mk p q) := by
  set N := xs.length with hNdef
  set P := exactPolygon arr xs ys with hP
  -- the loop
  have hloop := forLoop_invariant
    (fun (i : Int) (cv : List (Segment Q)) =>
      (readAt xs i >>= fun psx => readAt ys i >>= fun psy =>
        readAt xs (i + 1) >>= fun ptx => readAt ys (i + 1) >>= fun pty =>
          writeAt cv i (Segment.mk (Point.mk (arr.ofDouble psx) (arr.ofDouble psy))
            (Point.mk (arr.ofDouble ptx) (arr.ofDouble pty)))))
    (N - 1)
    (fun k cv => cv.length = N ∧ ∀ i, i < k → ∃ p q, P[i]? = some p ∧
        P[i + 1]? = some q ∧ cv[i]? = some (Segment.mk p q))
    0 (List.replicate N arr.defaultSegment)
    ⟨by simp, by intro i hi; omega⟩
    (by
      intro k cv hk ⟨hcl, hcells⟩
      obtain ⟨x0, y0, hx0, hy0, hp0⟩ := exactPolygon_getElem? arr xs ys k (by omega) (by omega)
      obtain ⟨x1, y1, hx1, hy1, hp1⟩ :=
        exactPolygon_getElem? arr xs ys (k + 1) (by omega) (by omega)
      refine ⟨cv.set k (Segment.mk (Point.mk (arr.ofDouble x0) (arr.ofDouble y0))
          (Point.mk (arr.ofDouble x1) (arr.ofDouble y1))), ?_, by simpa using hcl, ?_⟩
      · beta_reduce
        rw [readAt_of_getElem? xs _ k x0 (by simp) hx0]
        rw [readAt_of_getElem? ys _ k y0 (by simp) hy0]
        rw [readAt_of_getElem? xs _ (k + 1) x1 (by push_cast; ring) hx1]
        rw [readAt_of_getElem? ys _ (k + 1) y1 (by push_cast; ring) hy1]
        simp only [value_bind]
        exact writeAt_of_lt cv _ k _ (by simp) (by omega)
      · intro i hi
        rcases Nat.lt_succ_iff_lt_or_eq.mp hi with hlt | heq
        · obtain ⟨p, q, h1, h2, h3⟩ := hcells i hlt
          refine ⟨p, q, h1, h2, ?_⟩
          rw [List.getElem?_set_ne (by omega)]; exact h3
        · subst heq
          refine ⟨_, _, hp0, hp1, ?_⟩
          rw [List.getElem?_set_eq_of_lt _ (by omega)])
  obtain ⟨cv1, hcv1, hcl1, hcells1⟩ := hloop
  -- the last segment
  obtain ⟨xl, yl, hxl, hyl, hpl⟩ := exactPolygon_getElem? arr xs ys (N - 1) (by omega) (by omega)
  obtain ⟨xf, yf, hxf, hyf, hpf⟩ := exactPolygon_getElem? arr xs ys 0 (by omega) (by omega)
  refine ⟨cv1.set (N - 1) (Segment.mk (Point.mk (arr.ofDouble xl) (arr.ofDouble yl))
      (Point.mk (arr.ofDouble xf) (arr.ofDouble yf))), ?_, by simpa using hcl1, ?_⟩
  · have hcast : ((N : Int) - 1) = ((N - 1 : Nat) : Int) := by omega
    have htn : ((N : Int) - 1 - 0).toNat = N - 1 := by omega
    have hNN : (N : Int).toNat = N := by simp
    simp only [buildSegments, forRange, bind_assoc]
    rw [← hNdef, htn, hNN]
    show (forLoop _ (N - 1) 0 (List.replicate N arr.defaultSegment) >>= _) = _
    rw [hcv1]
    simp only [value_bind]
    rw [readAt_of_getElem? xs _ (N - 1) xl hcast hxl]
    rw [readAt_of_getElem? ys _ (N - 1) yl hcast hyl]
    rw [readAt_of_getElem? xs _ 0 xf (by simp) hxf]
    rw [readAt_of_getElem? ys _ 0 yf (by simp) hyf]
    simp only [value_bind]
    exact writeAt_of_lt cv1 _ (N - 1) _ hcast (by omega)
  · intro i hi
    by_cases hlast : i = N - 1
    · subst hlast
      have hmod : (N - 1 + 1) % N = 0 := by
        rw [Nat.sub_add_cancel hN]; exact Nat.mod_self N
      refine ⟨_, _, hpl, by rw [hmod]; exact hpf, ?_⟩
      rw [List.getElem?_set_eq_of_lt _ (by omega)]
    · have hlt : i < N - 1 := by omega
      obtain ⟨p, q, h1, h2, h3⟩ := hcells1 i hlt
      have hmod : (i + 1) % N = i + 1 := Nat.mod_eq_of_lt (by omega)
      refine ⟨p, q, h1, by rw [hmod]; exact h2, ?_⟩
      rw [List.getElem?_set_ne (by omega)]; exact h3

/-! ## The walk round the first hole -/

theorem circNext_of_lt (m k : Nat) (h : k + 1 < m) : circNext m k = k + 1 := by
  simp [circNext, Nat.mod_eq_of_lt h]

theorem circNext_last (m k : Nat) (h : k + 1 = m) : circNext m k = 0 := by
  simp [circNext, h]

/-- The counting loop ends once the circulator is back at the start, with one
count for each halfedge from its position on. -/
theorem countLoop_value (m : Nat) :
    ∀ (fuel k : Nat) (pc : Int), k < m → m - k ≤ fuel →
      countLoop m fuel k pc = value (pc + ((m - k : Nat) : Int)) := by
  intro fuel
  induction fuel with
  | zero => intro k pc hk hf; omega
  | succ fuel ih =>
    intro k pc hk hf
    by_cases hlast : k + 1 = m
    · have e : ((m - k : Nat) : Int) = 1 := by omega
      simp [countLoop, circNext_last m k hlast, e]
    · have hlt : k + 1 < m := by omega
      have e : pc + 1 + ((m - (k + 1) : Nat) : Int) = pc + ((m - k : Nat) : Int) := by omega
      simp [countLoop, circNext_of_lt m k hlt, ih (k + 1) (pc + 1) hlt (by omega), e]

/-- The filling loop, started at halfedge `k` with `index = k`, ends with a
value: the cells `j` and `M + j` of every halfedge `j ≥ k` hold the coordinates
of its target, and the cells of the halfedges before `k` are left alone. -/
theorem fillLoop_cells {D Q : Type} (to_double : Q → D) (c : Ccb Q) :
    ∀ (fuel k : Nat) (points : List (Option D)), k < c.size → c.size - k ≤ fuel →
      points.length = 2 * c.size →
      ∃ r, fillLoop to_double c (c.size : Int) fuel k (k : Int) points = value r ∧
        r.length = 2 * c.size ∧
        (∀ j, k ≤ j → j < c.size → ∃ e, c.halfedges[j]? = some e ∧
          r[j]? = some (some (to_double e.target.x)) ∧
          r[c.size + j]? = some (some (to_double e.target.y))) ∧
        (∀ j, (j < k ∨ (c.size ≤ j ∧ j < c.size + k)) → r[j]? = points[j]?) := by
  intro fuel
  induction fuel with
  | zero => intro k points hk hf; omega
  | succ fuel ih =>
    intro k points hk hf hlen
    have hhl : c.halfedges.length = c.size := by simp [Ccb.halfedges, Ccb.size]
    have hek : c.halfedges[k]? = some (c.halfedges[k]) := List.getElem?_eq_getElem (by omega)
    set e := c.halfedges[k] with he
    set p1 := points.set k (some (to_double e.target.x)) with hp1
    set p2 := p1.set (k + c.size) (some (to_double e.target.y)) with hp2
    have hw1 : writeAt points (k : Int) (some (to_double e.target.x)) = value p1 :=
      writeAt_of_lt points _ k _ rfl (by omega)
    have hw2 : writeAt p1 ((k : Int) + (c.size : Int)) (some (to_double e.target.y)) = value p2 :=
      writeAt_of_lt p1 _ (k + c.size) _ (by push_cast; ring) (by simp [hp1]; omega)
    have hl2 : p2.length = 2 * c.size := by simp [hp2, hp1, hlen]
    have hk2 : p2[k]? = some (some (to_double e.target.x)) := by
      rw [hp2, List.getElem?_set_ne (by omega), hp1, List.getElem?_set_eq_of_lt _ (by omega)]
    have hMk2 : p2[c.size + k]? = some (some (to_double e.target.y)) := by
      rw [hp2, Nat.add_comm c.size k, List.getElem?_set_eq_of_lt _ (by simp [hp1]; omega)]
    have hkeep : ∀ j, (j < k ∨ (c.size ≤ j ∧ j < c.size + k)) → p2[j]? = points[j]? := by
      intro j hj
      rw [hp2, List.getElem?_set_ne (by omega), hp1, List.getElem?_set_ne (by omega)]
    by_cases hlast : k + 1 = c.size
    · refine ⟨p2, ?_, hl2, ?_, hkeep⟩
      · simp [fillLoop, hek, hw1, hw2, circNext_last c.size k hlast]
      · intro j hj1 hj2
        have : j = k := by omega
        subst this
        exact ⟨e, hek, hk2, hMk2⟩
    · have hlt : k + 1 < c.size := by omega
      obtain ⟨r, hr, hrl, hnew, hold⟩ := ih (k + 1) p2 hlt (by omega) hl2
      refine ⟨r, ?_, hrl, ?_, ?_⟩
      · have hr1 : fillLoop to_double c (c.size : Int) fuel (k + 1) ((k : Int) + 1) p2 = value r := by
          have := hr; push_cast at this; exact this
        simp [fillLoop, hek, hw1, hw2, circNext_of_lt c.size k hlt, hr1]
      · intro j hj1 hj2
        by_cases hjk : j = k
        · subst hjk
          refine ⟨e, hek, ?_, ?_⟩
          · rw [hold j (Or.inl (by omega))]; exact hk2
          · rw [hold (c.size + j) (Or.inr ⟨by omega, by omega⟩)]; exact hMk2
        · exact hnew j (by omega) hj2
      · intro j hj
        rw [hold j (by omega)]
        exact hkeep j hj

theorem copyOut_map_some {D : Type} (l : List D) : copyOut (l.map some) = value l := by
  induction l with
  | nil => rfl
  | cons a l ih => simp [copyOut, ih]

/-- With a round of fuel for each halfedge, the walk round the first hole
returns the packed targets of that hole. -/
theorem walkFirstHole_value {D Q : Type} (to_double : Q → D) (fuel : Nat) (c : Ccb Q)
    (others : List (Ccb Q)) (hfuel : c.size ≤ fuel) :
    walkFirstHole to_double fuel (c :: others) = value (packedTargets to_double c) := by
  have hpos : 0 < c.size := by simp [Ccb.size]
  have hhl : c.halfedges.length = c.size := by simp [Ccb.halfedges, Ccb.size]
  have hcount := countLoop_value c.size fuel 0 0 hpos (by omega)
  simp only [Nat.sub_zero, zero_add] at hcount
  have hrep : (List.replicate (2 * (c.size : Int)).toNat (none : Option D)).length
      = 2 * c.size := by
    simp only [List.length_replicate]; omega
  obtain ⟨r, hr, hrl, hnew, _⟩ := fillLoop_cells to_double c fuel 0 _ hpos (by omega) hrep
  have hr0 : fillLoop to_double c (c.size : Int) fuel 0 0
      (List.replicate (2 * (c.size : Int)).toNat none) = value r := by
    have := hr; simpa using this
  have hreq : r = (packedTargets to_double c).map some := by
    apply List.ext_getElem?
    intro j
    by_cases hj : j < c.size
    · obtain ⟨e, he, hx, _⟩ := hnew j (Nat.zero_le j) hj
      rw [hx, List.getElem?_map, packedTargets,
        List.getElem?_append_left (by simp [hhl]; exact hj), List.getElem?_map, he]
      rfl
    · by_cases hj2 : j < 2 * c.size
      · obtain ⟨e, he, _, hy⟩ := hnew (j - c.size) (Nat.zero_le _) (by omega)
        have e1 : c.size + (j - c.size) = j := by omega
        rw [e1] at hy
        rw [hy]
        have hge : (c.halfedges.map (fun e => to_double e.target.x)).length ≤ j := by
          simp [hhl]; omega
        rw [List.getElem?_map, packedTargets, List.getElem?_append_right hge,
          List.length_map, hhl, List.getElem?_map, he]
        rfl
      · rw [List.getElem?_eq_none (by omega), List.getElem?_eq_none (by
          simp [packedTargets, hhl]; omega)]
  show (countLoop c.size fuel 0 0 >>= fun pointcount =>
      fillLoop to_double c pointcount fuel 0 0
        (List.replicate (2 * pointcount).toNat none) >>= fun points => copyOut points) = _
  rw [hcount]
  simp only [value_bind]
  rw [hr0]
  simp only [value_bind]
  rw [hreq, copyOut_map_some]

/-! ## Polygon construction -/

/-- With at least as many y-coordinates as x-coordinates, the polygon is built
without an access out of bounds: it pairs the x-coordinates with the first
y-coordinates, and the y-coordinates beyond the length of `xs` are not read. -/
theorem pointListToPolygon_value {D : Type} (xs ys : List D) (hlen : xs.length ≤ ys.length) :
    pointListToPolygon (xs.length : Int) xs ys
      = value (List.zipWith Point.mk xs (ys.take xs.length)) := by
  have hloop := forLoop_invariant
    (fun (i : Int) (poly : Polygon_2 D) =>
      (readAt xs i >>= fun x => readAt ys i >>= fun y => value (poly ++ [Point.mk x y])))
    xs.length
    (fun k poly => poly = (List.zipWith Point.mk xs ys).take k)
    0 [] (by simp)
    (by
      intro k poly hk hpoly
      have hx : xs[k]? = some xs[k] := List.getElem?_eq_getElem hk
      have hy : ys[k]? = some (ys[k]) := List.getElem?_eq_getElem (by omega)
      refine ⟨poly ++ [Point.mk xs[k] (ys[k])], ?_, ?_⟩
      · beta_reduce
        rw [readAt_of_getElem? xs _ k _ (by simp) hx, readAt_of_getElem? ys _ k _ (by simp) hy]
        rfl
      · beta_reduce
        rw [List.take_succ, hpoly, List.getElem?_zipWith, hx, hy]
        rfl)
  obtain ⟨poly, hval, hpoly⟩ := hloop
  have hn : ((xs.length : Int) - 0).toNat = xs.length := by omega
  have htake : List.zipWith Point.mk xs (ys.take xs.length) = List.zipWith Point.mk xs ys := by
    apply List.ext_getElem?
    intro i
    by_cases hi : i < xs.length
    · simp [List.getElem?_zipWith, List.getElem?_take, hi]
    · have hx : xs[i]? = none := List.getElem?_eq_none (by omega)
      simp [List.getElem?_zipWith, hx]
  have hfull : (List.zipWith Point.mk xs ys).take xs.length = List.zipWith Point.mk xs ys := by
    apply List.take_of_length_le
    simp
  rw [htake]
  show forLoop _ ((xs.length : Int) - 0).toNat 0 [] = _
  rw [hn]
  rw [hfull] at hpoly
  rw [← hpoly]
  exact hval

/-! ## The shoelace formula -/

theorem sum_map_range (g : ℕ → ℚ) (n : ℕ) :
    ((List.range n).map g).sum = ∑ i ∈ Finset.range n, g i := by
  induction n with
  | zero => simp
  | succ n ih =>
    rw [List.range_succ, List.map_append, List.sum_append, ih, Finset.sum_range_succ]
    simp

/-- The term of the shoelace sum is antisymmetric in its two vertices. -/
theorem sum_zipWith_swap (l1 l2 : List (Point ℚ)) :
    (List.zipWith (fun p q => p.x * q.y - q.x * p.y) l1 l2).sum
      = -(List.zipWith (fun p q => p.x * q.y - q.x * p.y) l2 l1).sum := by
  induction l1 generalizing l2 with
  | nil => simp
  | cons a l1 ih =>
    cases l2 with
    | nil => simp
    | cons b l2 =>
      simp only [List.zipWith_cons_cons, List.sum_cons, ih l2]
      ring

/-- The area of the polygon with coordinate sequences `xs` and `ys` as the sum
over the vertex indices. -/
theorem area_eq_sum (xs ys : List ℚ) (hlen : ys.length = xs.length) :
    area (List.zipWith Point.mk xs ys)
      = (∑ i ∈ Finset.range xs.length,
          (xs.getD i 0 * ys.getD ((i + 1) % xs.length) 0
            - xs.getD ((i + 1) % xs.length) 0 * ys.getD i 0)) / 2 := by
  have hPl : (List.zipWith Point.mk xs ys).length = xs.length := by simp [hlen]
  have hlist : List.zipWith (fun p q => p.x * q.y - q.x * p.y) (List.zipWith Point.mk xs ys)
        ((List.zipWith Point.mk xs ys).rotate 1)
      = (List.range xs.length).map (fun i =>
          xs.getD i 0 * ys.getD ((i + 1) % xs.length) 0
            - xs.getD ((i + 1) % xs.length) 0 * ys.getD i 0) := by
    apply List.ext_getElem
    · simp [hlen]
    · intro i h1 h2
      have hi : i < xs.length := by simpa using h2
      have hm : (i + 1) % xs.length < xs.length := Nat.mod_lt _ (by omega)
      rw [List.getElem_zipWith, List.getElem_rotate, List.getElem_zipWith, List.getElem_zipWith]
      simp only [List.getElem_map, List.getElem_range, hPl]
      rw [List.getD_eq_getElem xs 0 hi, List.getD_eq_getElem ys 0 (by omega),
        List.getD_eq_getElem xs 0 hm, List.getD_eq_getElem ys 0 (by omega)]
  rw [area, hlist, sum_map_range]

/-- Listing the vertices in reverse order negates the area. -/
theorem area_reverse (P : Polygon_2 ℚ) : area P.reverse = -area P := by
  by_cases hP : P = []
  · subst hP; simp [area]
  have hpos : 0 < P.length := List.length_pos.mpr hP
  set m := P.length - 1 % P.length with hm
  have hmod : (m + 1) % P.length = 0 := by
    by_cases h1 : P.length = 1
    · rw [h1]; exact Nat.mod_one _
    · have : 1 % P.length = 1 := Nat.mod_eq_of_lt (by omega)
      have : m + 1 = P.length := by omega
      rw [this]; exact Nat.mod_self _
  have hback : (P.rotate m).rotate 1 = P := by
    rw [List.rotate_rotate, ← List.rotate_mod, hmod, List.rotate_zero]
  have h1 : List.zipWith (fun p q => p.x * q.y - q.x * p.y) P.reverse (P.reverse.rotate 1)
      = (List.zipWith (fun p q => p.x * q.y - q.x * p.y) P (P.rotate m)).reverse := by
    rw [List.rotate_reverse, List.reverse_zipWith (by simp)]
  have h2 : (List.zipWith (fun p q => p.x * q.y - q.x * p.y) (P.rotate m) P).sum
      = (List.zipWith (fun p q => p.x * q.y - q.x * p.y) P (P.rotate 1)).sum := by
    have hrot : (List.zipWith (fun p q => p.x * q.y - q.x * p.y) P (P.rotate 1)).rotate m
        = List.zipWith (fun p q => p.x * q.y - q.x * p.y) (P.rotate m) P := by
      rw [List.zipWith_rotate_distrib _ _ _ _ (by simp), List.rotate_rotate, Nat.add_comm,
        ← List.rotate_rotate, hback]
    rw [← hrot]
    exact (List.rotate_perm _ _).sum_eq
  rw [area, h1, List.sum_reverse, sum_zipWith_swap, h2, area]
  ring

/-! ## The claims -/

/-- C4. Over the area of the specification, for every polygon (of three or
more vertices, and of fewer) `signedArea` returns one half of the sum over `i` of `x_i * y_{(i+1) mod N} - x_{(i+1) mod N} * y_i`, with its
sign: the wrapper hands the area on as it is, the counter-clockwise test is
true exactly when that value is positive and the clockwise test exactly when
it is negative. -/
theorem signedArea_is_shoelaceFormula (xs ys : List ℚ) (hlen : ys.length = xs.length) :
    cgal_signedArea area xs ys = value (shoelaceFormula xs ys) ∧
    cgal_isCounterclockwiseOriented is_counterclockwise_oriented xs ys
      = value (decide (0 < shoelaceFormula xs ys)) ∧
    cgal_isClockwiseOriented is_clockwise_oriented xs ys
      = value (decide (shoelaceFormula xs ys < 0)) := by
  have hpoly := pointListToPolygon_value xs ys (by omega)
  have htake : ys.take xs.length = ys := List.take_of_length_le (by omega)
  rw [htake] at hpoly
  have harea := area_eq_sum xs ys hlen
  refine ⟨?_, ?_, ?_⟩
  · show (pointListToPolygon (xs.length : Int) xs ys >>= fun pgn => value (area pgn)) = _
    rw [hpoly, value_bind, harea, shoelaceFormula]
  · show (pointListToPolygon (xs.length : Int) xs ys >>= fun pgn =>
      value (is_counterclockwise_oriented pgn)) = _
    rw [hpoly, value_bind, is_counterclockwise_oriented, harea, shoelaceFormula]
  · show (pointListToPolygon (xs.length : Int) xs ys >>= fun pgn =>
      value (is_clockwise_oriented pgn)) = _
    rw [hpoly, value_bind, is_clockwise_oriented, harea, shoelaceFormula]

/-- C4, witness: the unit square has signed area `1`, and `-1` in reverse
order. -/
theorem signedArea_is_shoelaceFormula_witness :
    (3 ≤ [0, 1, 1, (0 : ℚ)].length ∧ [0, 0, 1, (1 : ℚ)].length = [0, 1, 1, (0 : ℚ)].length) ∧
    cgal_signedArea area [0, 1, 1, 0] [0, 0, 1, 1] = value 1 ∧
    cgal_signedArea area [0, 1, 1, 0] [1, 1, 0, 0] = value (-1) := by
  refine ⟨⟨by decide, by decide⟩, ?_, ?_⟩
  · rw [(signedArea_is_shoelaceFormula [0, 1, 1, 0] [0, 0, 1, 1] (by decide)).1]
    norm_num [shoelaceFormula, Finset.sum_range_succ]
  · rw [(signedArea_is_shoelaceFormula [0, 1, 1, 0] [1, 1, 0, 0] (by decide)).1]
    norm_num [shoelaceFormula, Finset.sum_range_succ]

/-- C5. Over the area and the orientation tests of the specification: for the
polygon in reverse vertex order `signedArea` returns the negated value,
`isClockwiseOriented` returns what `isCounterclockwiseOriented` returns for the
polygon, and `isCounterclockwiseOriented` what `isClockwiseOriented` returns. -/
theorem reversal_negates_area_and_swaps_orientation (xs ys : List ℚ)
    (hlen : ys.length = xs.length) :
    ∃ a : ℚ, cgal_signedArea area xs ys = value a ∧
      cgal_signedArea area xs.reverse ys.reverse = value (-a) ∧
      cgal_isClockwiseOriented is_clockwise_oriented xs.reverse ys.reverse
        = cgal_isCounterclockwiseOriented is_counterclockwise_oriented xs ys ∧
      cgal_isCounterclockwiseOriented is_counterclockwise_oriented xs.reverse ys.reverse
        = cgal_isClockwiseOriented is_clockwise_oriented xs ys := by
  have hpoly := pointListToPolygon_value xs ys (by omega)
  have htake : ys.take xs.length = ys := List.take_of_length_le (by omega)
  rw [htake] at hpoly
  have hrev := pointListToPolygon_value xs.reverse ys.reverse (by simp; omega)
  have htaker : ys.reverse.take xs.reverse.length = ys.reverse :=
    List.take_of_length_le (by simp; omega)
  rw [htaker, ← List.reverse_zipWith hlen.symm] at hrev
  have harea := area_reverse (List.zipWith Point.mk xs ys)
  refine ⟨area (List.zipWith Point.mk xs ys), ?_, ?_, ?_, ?_⟩
  · show (pointListToPolygon (xs.length : Int) xs ys >>= fun pgn => value (area pgn)) = _
    rw [hpoly, value_bind]
  · show (pointListToPolygon (xs.reverse.length : Int) xs.reverse ys.reverse >>=
      fun pgn => value (area pgn)) = _
    rw [hrev, value_bind, harea]
  · show (pointListToPolygon (xs.reverse.length : Int) xs.reverse ys.reverse >>=
        fun pgn => value (is_clockwise_oriented pgn))
      = (pointListToPolygon (xs.length : Int) xs ys >>=
        fun pgn => value (is_counterclockwise_oriented pgn))
    rw [hrev, hpoly, value_bind, value_bind, is_clockwise_oriented,
      is_counterclockwise_oriented, harea]
    simp
  · show (pointListToPolygon (xs.reverse.length : Int) xs.reverse ys.reverse >>=
        fun pgn => value (is_counterclockwise_oriented pgn))
      = (pointListToPolygon (xs.length : Int) xs ys >>=
        fun pgn => value (is_clockwise_oriented pgn))
    rw [hrev, hpoly, value_bind, value_bind, is_clockwise_oriented,
      is_counterclockwise_oriented, harea]
    simp

/-- C5, witness: the unit square and its reversal. -/
theorem reversal_negates_area_and_swaps_orientation_witness :
    [0, 0, 1, (1 : ℚ)].length = [0, 1, 1, (0 : ℚ)].length ∧
    ∃ a : ℚ, cgal_signedArea area [0, 1, 1, 0] [0, 0, 1, 1] = value a ∧
      cgal_signedArea area [0, 1, 1, 0].reverse [0, 0, 1, 1].reverse = value (-a) ∧
      cgal_isClockwiseOriented is_clockwise_oriented [0, 1, 1, 0].reverse [0, 0, 1, 1].reverse
        = cgal_isCounterclockwiseOriented is_counterclockwise_oriented [0, 1, 1, 0] [0, 0, 1, 1] ∧
      cgal_isCounterclockwiseOriented is_counterclockwise_oriented [0, 1, 1, 0].reverse
          [0, 0, 1, 1].reverse
        = cgal_isClockwiseOriented is_clockwise_oriented [0, 1, 1, 0] [0, 0, 1, 1] :=
  ⟨by decide, reversal_negates_area_and_swaps_orientation [0, 1, 1, 0] [0, 0, 1, 1] (by decide)⟩

/-- C10, witness: the three segments of a triangle. -/
theorem buildSegments_is_closed_chain_witness :
    (1 ≤ [0, 1, (1 : ℚ)].length ∧ [0, 0, (1 : ℚ)].length = [0, 1, (1 : ℚ)].length) ∧
    ∃ cv, buildSegments (ratArr fun _ => []) [0, 1, 1] [0, 0, 1] = value cv ∧
      cv.length = [0, 1, (1 : ℚ)].length ∧
      ∀ i, i < [0, 1, (1 : ℚ)].length →
        ∃ p q, (exactPolygon (ratArr fun _ => []) [0, 1, 1] [0, 0, 1])[i]? = some p ∧
          (exactPolygon (ratArr fun _ => []) [0, 1, 1] [0, 0, 1])[(i + 1)
            % [0, 1, (1 : ℚ)].length]? = some q ∧
          cv[i]? = some (Segment.mk p q) :=
  ⟨⟨by decide, by decide⟩,
    buildSegments_is_closed_chain (ratArr fun _ => []) [0, 1, 1] [0, 0, 1] (by decide) (by decide)⟩

/-- C9. When the segment array is built, the unbounded face has a first hole
of `M` halfedges and each loop is given at least `M` rounds, then
`cgal_makePolySimple` returns a sequence `r` of length `2 * M` with
`r[i] = to_double (x (target e_i))` and `r[M + i] = to_double (y (target e_i))`
for every `i < M`, `e_i` the `i`-th halfedge in the order of the circulator. No
write leaves `[0, 2 * M)`: the result is a value. -/
theorem makePolySimple_packs_targets {D Q : Type} (arr : Arrangement_2 D Q) (fuel : Nat)
    (xs ys : List D) (cv : List (Segment Q)) (c : Ccb Q) (others : List (Ccb Q))
    (hcv : buildSegments arr xs ys = value cv) (hholes : arr.holes cv = c :: others)
    (hfuel : c.size ≤ fuel) :
    ∃ r, cgal_makePolySimple arr fuel xs ys = value r ∧ r.length = 2 * c.size ∧
      ∀ i, i < c.size → ∃ e, c.halfedges[i]? = some e ∧
        r[i]? = some (arr.to_double e.target.x) ∧
        r[c.size + i]? = some (arr.to_double e.target.y) := by
  have hhl : c.halfedges.length = c.size := by simp [Ccb.halfedges, Ccb.size]
  refine ⟨packedTargets arr.to_double c, ?_, ?_, ?_⟩
  · show (buildSegments arr xs ys >>= fun cv =>
      walkFirstHole arr.to_double fuel (arr.holes cv)) = _
    rw [hcv, value_bind, hholes, walkFirstHole_value arr.to_double fuel c others hfuel]
  · simp [packedTargets, hhl]; ring
  · intro i hi
    have he : c.halfedges[i]? = some (c.halfedges[i]) := List.getElem?_eq_getElem (by omega)
    refine ⟨c.halfedges[i], he, ?_, ?_⟩
    · rw [packedTargets, List.getElem?_append_left (by simp [hhl]; exact hi),
        List.getElem?_map, he]
      rfl
    · rw [packedTargets, List.getElem?_append_right (by simp [hhl]), List.length_map, hhl,
        Nat.add_sub_cancel_left, List.getElem?_map, he]
      rfl

/-- C9, witness: the walk round the hole of the unit square. -/
theorem makePolySimple_packs_targets_witness :
    (buildSegments (ratArr fun _ => [squareCcb]) [0, 1, 1, 0] [0, 0, 1, 1]
        = value [⟨⟨0, 0⟩, ⟨1, 0⟩⟩, ⟨⟨1, 0⟩, ⟨1, 1⟩⟩, ⟨⟨1, 1⟩, ⟨0, 1⟩⟩, ⟨⟨0, 1⟩, ⟨0, 0⟩⟩] ∧
      squareCcb.size ≤ 4) ∧
    ∃ r, cgal_makePolySimple (ratArr fun _ => [squareCcb]) 4 [0, 1, 1, 0] [0, 0, 1, 1] = value r ∧
      r.length = 2 * squareCcb.size ∧
      ∀ i, i < squareCcb.size → ∃ e, squareCcb.halfedges[i]? = some e ∧
        r[i]? = some ((ratArr fun _ => [squareCcb]).to_double e.target.x) ∧
        r[squareCcb.size + i]? = some ((ratArr fun _ => [squareCcb]).to_double e.target.y) :=
  ⟨⟨by decide, by decide⟩,
    makePolySimple_packs_targets (ratArr fun _ => [squareCcb]) 4 [0, 1, 1, 0] [0, 0, 1, 1]
      [⟨⟨0, 0⟩, ⟨1, 0⟩⟩, ⟨⟨1, 0⟩, ⟨1, 1⟩⟩, ⟨⟨1, 1⟩, ⟨0, 1⟩⟩, ⟨⟨0, 1⟩, ⟨0, 0⟩⟩] squareCcb []
      (by decide) rfl (by decide)⟩

/-- C8. The code on an input without a hole: for the empty input the read
`xcoords[size-1]` is the read of index `-1`, and on an empty hole list the
walk dereferences `holes_begin()`. Each is undefined behaviour; neither is a
structural error reported to the caller. -/
theorem makePolySimple_without_hole_is_undefined {D Q : Type} (arr : Arrangement_2 D Q)
    (fuel : Nat) :
    cgal_makePolySimple arr fuel [] [] = undefined ∧
    walkFirstHole arr.to_double fuel [] = undefined ∧
    (undefined : Outcome (List D)) ≠ structuralError := by
  refine ⟨?_, rfl, by simp⟩
  show (buildSegments arr [] [] >>= fun cv =>
    walkFirstHole arr.to_double fuel (arr.holes cv)) = _
  have : buildSegments arr ([] : List D) [] = undefined := by
    simp [buildSegments, forRange, forLoop, readAt]
  rw [this]
  rfl

/-- C1. The code on the bowtie: the walk round the hole cycle of the bowtie
returns six vertices, and the crossing point `(1/2, 1/2)` is the second and the
fifth of them. The first and the fourth edge of the returned polygon, which
are not adjacent, meet in that point. -/
theorem makePolySimple_bowtie_repeats_crossing_point :
    walkFirstHole (fun q : ℚ => q) 6 [bowtieCcb]
      = value [0, 1/2, 1, 1, 1/2, 0, 1, 1/2, 1, 0, 1/2, 0] ∧
    unpackedPolygon [0, 1/2, 1, 1, 1/2, 0, 1, 1/2, 1, 0, 1/2, (0 : ℚ)]
      = [⟨0, 1⟩, ⟨1/2, 1/2⟩, ⟨1, 1⟩, ⟨1, 0⟩, ⟨1/2, 1/2⟩, ⟨0, 0⟩] ∧
    ¬ (unpackedPolygon [0, 1/2, 1, 1, 1/2, 0, 1, 1/2, 1, 0, 1/2, (0 : ℚ)]).Nodup := by
  refine ⟨?_, ?_, ?_⟩
  · rw [walkFirstHole_value _ 6 bowtieCcb [] (by decide)]
    simp [packedTargets, Ccb.halfedges, bowtieCcb]
  · simp [unpackedPolygon]
  · simp [unpackedPolygon]

/-- C7, as stated, fails. With three x-coordinates and four y-coordinates
the polygon is built from the first three of each, the fourth y-coordinate is
dropped without a word, and `isSimple` returns the value of the library on that
triangle; with two points `signedArea` returns the value of the library on the
two-point polygon. Neither call reports a structural error. -/
theorem predicates_accept_malformed_input :
    pointListToPolygon 3 [0, 1, 1] [0, 0, 1, (5 : ℚ)]
      = value [⟨0, 0⟩, ⟨1, 0⟩, ⟨1, 1⟩] ∧
    (∀ is_simple : Polygon_2 ℚ → Bool,
      cgal_isSimple is_simple [0, 1, 1] [0, 0, 1, 5] = value (is_simple [⟨0, 0⟩, ⟨1, 0⟩, ⟨1, 1⟩]) ∧
      cgal_isSimple is_simple [0, 1, 1] [0, 0, 1, 5] ≠ structuralError) ∧
    (∀ areaOf : Polygon_2 ℚ → ℚ,
      cgal_signedArea areaOf [0, 0] [0, 0] = value (areaOf [⟨0, 0⟩, ⟨0, 0⟩]) ∧
      cgal_signedArea areaOf [0, 0] [0, 0] ≠ structuralError) := by
  refine ⟨by decide, ?_, ?_⟩
  · intro is_simple
    have h : cgal_isSimple is_simple [0, 1, 1] [0, 0, 1, 5]
        = value (is_simple [⟨0, 0⟩, ⟨1, 0⟩, ⟨1, 1⟩]) := by
      show (pointListToPolygon (([0, 1, 1] : List ℚ).length : Int) [0, 1, 1] [0, 0, 1, 5] >>=
        fun pgn => value (is_simple pgn)) = _
      rw [pointListToPolygon_value _ _ (by decide)]
      rfl
    exact ⟨h, by rw [h]; simp⟩
  · intro areaOf
    have h : cgal_signedArea areaOf [0, 0] [0, 0] = value (areaOf [⟨0, 0⟩, ⟨0, 0⟩]) := by
      show (pointListToPolygon (([0, 0] : List ℚ).length : Int) [0, 0] [0, 0] >>=
        fun pgn => value (areaOf pgn)) = _
      rw [pointListToPolygon_value _ _ (by decide)]
      rfl
    exact ⟨h, by rw [h]; simp⟩

/-- C7, amended. No predicate checks its input. When the y sequence has at
least as many entries as the x sequence (of any length, below three included),
each predicate builds the polygon from the x entries and the first `len(x)`
y entries, and returns the value of the library function on that polygon;
`orientation` returns the oriented side of the library when that is `-1`, `0`
or `1`. -/
theorem predicates_return_library_value_unchecked {D : Type}
    (is_simple is_convex is_ccw is_cw : Polygon_2 D → Bool)
    (oriented_side : Polygon_2 D → Point D → Int) (areaOf : Polygon_2 D → D)
    (xs ys : List D) (px py : D) (hlen : xs.length ≤ ys.length) :
    cgal_isSimple is_simple xs ys
      = value (is_simple (List.zipWith Point.mk xs (ys.take xs.length))) ∧
    cgal_isConvex is_convex xs ys
      = value (is_convex (List.zipWith Point.mk xs (ys.take xs.length))) ∧
    cgal_isCounterclockwiseOriented is_ccw xs ys
      = value (is_ccw (List.zipWith Point.mk xs (ys.take xs.length))) ∧
    cgal_isClockwiseOriented is_cw xs ys
      = value (is_cw (List.zipWith Point.mk xs (ys.take xs.length))) ∧
    cgal_signedArea areaOf xs ys
      = value (areaOf (List.zipWith Point.mk xs (ys.take xs.length))) ∧
    cgal_orientation oriented_side xs ys [px, py]
      = (if oriented_side (List.zipWith Point.mk xs (ys.take xs.length)) ⟨px, py⟩ = -1 ∨
            oriented_side (List.zipWith Point.mk xs (ys.take xs.length)) ⟨px, py⟩ = 0 ∨
            oriented_side (List.zipWith Point.mk xs (ys.take xs.length)) ⟨px, py⟩ = 1
          then value (oriented_side (List.zipWith Point.mk xs (ys.take xs.length)) ⟨px, py⟩)
          else undefined) := by
  have hpoly := pointListToPolygon_value xs ys hlen
  refine ⟨?_, ?_, ?_, ?_, ?_, ?_⟩
  · show (pointListToPolygon (xs.length : Int) xs ys >>= fun pgn => value (is_simple pgn)) = _
    rw [hpoly, value_bind]
  · show (pointListToPolygon (xs.length : Int) xs ys >>= fun pgn => value (is_convex pgn)) = _
    rw [hpoly, value_bind]
  · show (pointListToPolygon (xs.length : Int) xs ys >>= fun pgn => value (is_ccw pgn)) = _
    rw [hpoly, value_bind]
  · show (pointListToPolygon (xs.length : Int) xs ys >>= fun pgn => value (is_cw pgn)) = _
    rw [hpoly, value_bind]
  · show (pointListToPolygon (xs.length : Int) xs ys >>= fun pgn => value (areaOf pgn)) = _
    rw [hpoly, value_bind]
  · simp only [cgal_orientation, hpoly, value_bind, pure_eq, ON_NEGATIVE_SIDE,
      ON_ORIENTED_BOUNDARY, ON_POSITIVE_SIDE]
    have h0 : readAt [px, py] 0 = value px := rfl
    have h1 : readAt [px, py] 1 = value py := rfl
    rw [h0, value_bind, h1, value_bind]
    generalize oriented_side (List.zipWith Point.mk xs (ys.take xs.length)) ⟨px, py⟩ = o
    by_cases hn : o = -1
    · simp [hn]
    · by_cases hz : o = 0
      · simp [hz]
      · by_cases hp : o = 1
        · simp [hp]
        · simp [hn, hz, hp]

/-- C7, amended, witness: three points, with a fourth y-coordinate that is
ignored. -/
theorem predicates_return_library_value_unchecked_witness :
    [0, 1, (1 : ℚ)].length ≤ [0, 0, 1, (5 : ℚ)].length ∧
    cgal_signedArea area [0, 1, 1] [0, 0, 1, 5]
      = value (area (List.zipWith Point.mk [0, 1, 1] ([0, 0, 1, 5].take [0, 1, (1 : ℚ)].length))) :=
  ⟨by decide,
    (predicates_return_library_value_unchecked (fun _ => true) (fun _ => true) (fun _ => true)
      (fun _ => true) (fun _ _ => 0) area [0, 1, 1] [0, 0, 1, 5] 0 0 (by decide)).2.2.2.2.1⟩

end Polygon2D_Cgal
